import Mathlib

/-!
Shallow embedding of the agent-orchestration core of `agent-ai-learnings`:
the per-user memory factory (`src/day5/scalableMemory.ts`), the Google
Books tool layer (`src/lib/googleBooks.ts`, `src/day3/executor.ts`), the
retry policy attached to the `callAgent` node, and the linear state-flow
graphs (`src/day4/graph.ts`, `src/day5/graphWithMemory.ts`,
`src/day5/scalableMemory.ts`).
-/

namespace AgentAI

/-- A chat message as stored in a `BufferMemory` history: a role
(`"user"`, `"assistant"`, ...) and text content. -/
structure Message where
  role : String
  content : String
deriving DecidableEq, Repr

/-- Association-list lookup of the first value bound to a key, mirroring
`Map.get` of a JavaScript `Map` (whose keys are unique). -/
def findKey {β : Type} (l : List (String × β)) (k : String) : Option β :=
  match l with
  | [] => none
  | (k1, v) :: t => if k1 = k then some v else findKey t k

/-- Association-list removal of the first binding of a key, mirroring
`Map.delete` of a JavaScript `Map` (whose keys are unique). -/
def removeKey {β : Type} (l : List (String × β)) (k : String) : List (String × β) :=
  match l with
  | [] => []
  | (k1, v) :: t => if k1 = k then t else (k1, v) :: removeKey t k

/-- The state owned by a `ScalableMemoryFactory` instance: the
`memoryInstances` map from userId to a `BufferMemory` instance, the heap
of message histories of all instances (identified by allocation number),
and the next fresh allocation number.  Object identity of `BufferMemory`
instances is modelled by the allocation number. -/
structure FactoryState where
  instances : List (String × Nat)
  stores : Nat → List Message
  nextId : Nat

/-- The factory as constructed at module load (`new ScalableMemoryFactory()`):
empty map, no allocated stores. -/
def initFactory : FactoryState :=
  { instances := [], stores := fun _ => [], nextId := 0 }

namespace ScalableMemoryFactory

/-- Method `createMemory` (scalableMemory.ts lines 27-66):
return the existing `BufferMemory` for `userId` if the map has one,
otherwise construct a fresh empty one, store it in the map, and return it.
There is no validation of `userId` whatsoever. -/
def createMemory (s : FactoryState) (userId : String) : Nat × FactoryState :=
  match findKey s.instances userId with
  | some id => (id, s)
  | none =>
      (s.nextId,
        { instances := (userId, s.nextId) :: s.instances
          stores := fun i => if i = s.nextId then [] else s.stores i
          nextId := s.nextId + 1 })

/-- Method `clearMemory` (scalableMemory.ts lines 70-76):
if the map has a memory for `userId`, clear its history and delete the
map entry; otherwise do nothing. -/
def clearMemory (s : FactoryState) (userId : String) : FactoryState :=
  match findKey s.instances userId with
  | none => s
  | some id =>
      { s with
        stores := fun i => if i = id then [] else s.stores i
        instances := removeKey s.instances userId }

/-- Method `getMemoryStats` (scalableMemory.ts lines 79-84):
`totalUsers` and `totalInstances` are both the size of the map. -/
def getMemoryStats (s : FactoryState) : Nat × Nat :=
  (s.instances.length, s.instances.length)

end ScalableMemoryFactory

/-- Append one message to the history of store `id` (the effect of
`chatHistory.addMessage` on a `BufferMemory`). -/
def appendMessage (s : FactoryState) (id : Nat) (m : Message) : FactoryState :=
  { s with stores := fun i => if i = id then s.stores i ++ [m] else s.stores i }

/-- Read the full ordered history of store `id` (the effect of
`chatHistory.getMessages` on a `BufferMemory`). -/
def readAll (s : FactoryState) (id : Nat) : List Message :=
  s.stores id

/-- Well-formedness of a factory state, true of every state reachable from
`initFactory`: map keys are unique (a JavaScript `Map` invariant), every
allocated id is below `nextId`, and distinct entries hold distinct
`BufferMemory` instances. -/
def GoodFactory (s : FactoryState) : Prop :=
  (s.instances.map Prod.fst).Nodup ∧
  (s.instances.map Prod.snd).Nodup ∧
  ∀ p ∈ s.instances, p.2 < s.nextId

instance (s : FactoryState) : Decidable (GoodFactory s) := by
  unfold GoodFactory; infer_instance

/-- Error type of the spec's §4.3 contract for a bad user identifier. -/
inductive InvalidKeyError where
  | invalidKey
deriving DecidableEq, Repr

/-- Modelled from the spec (for comparison with the code, which has no such
check): `createOrGet` as §4.3 describes it, failing with `InvalidKeyError`
exactly when `userId` is empty, succeeding otherwise. -/
def createOrGetSpec (s : FactoryState) (userId : String) :
    Except InvalidKeyError (Nat × FactoryState) :=
  if userId = "" then Except.error InvalidKeyError.invalidKey
  else Except.ok (ScalableMemoryFactory.createMemory s userId)

/-- Shape of `volumeInfo` in a Google Books API item (googleBooks.ts lines
12-16): every field may be absent. -/
structure VolumeInfo where
  title : Option String
  authors : Option (List String)
  infoLink : Option String
deriving DecidableEq, Repr

/-- One element of `data.items`: its `volumeInfo` may be absent. -/
structure BookItem where
  volumeInfo : Option VolumeInfo
deriving DecidableEq, Repr

/-- The parsed response body: `items` may be absent (or not an array), and an
array element may itself be null. -/
structure BooksData where
  items : Option (List (Option BookItem))
deriving DecidableEq, Repr

/-- One entry of the list `searchBooks` returns (googleBooks.ts lines 21-25). -/
structure Book where
  title : String
  authors : List String
  link : String
deriving DecidableEq, Repr

/-- Outcome of the `fetch` of the Google Books URL: the promise rejects
(network error), or a response arrives with an `ok` flag, a status code, and
a body whose JSON parse may itself fail. -/
inductive FetchOutcome where
  | fetchError
  | response (ok : Bool) (status : Nat) (body : Except Unit BooksData)
deriving Repr

/-- Function `searchBooks` (googleBooks.ts lines 1-30), with the fetch of the
query URL abstracted by its outcome.  Every failure path (fetch rejection,
non-OK status thrown as `Google Books HTTP ...`, JSON parse failure) is
caught by the surrounding try/catch, which logs and returns `[]`.  On
success, items are kept only when non-null with a `volumeInfo`, and the
three output fields fall back to defaults when absent. -/
def searchBooks (outcome : FetchOutcome) (query : String) : List Book :=
  match outcome with
  | FetchOutcome.fetchError => []
  | FetchOutcome.response ok _ body =>
      if ok = false then []
      else
        match body with
        | Except.error _ => []
        | Except.ok data =>
            let items := data.items.getD []
            ((items.filterMap id).filter (fun b => b.volumeInfo.isSome)).map
              (fun b =>
                { title := (b.volumeInfo.bind VolumeInfo.title).getD "Unknown title"
                  authors := (b.volumeInfo.bind VolumeInfo.authors).getD []
                  link := (b.volumeInfo.bind VolumeInfo.infoLink).getD "" })

/-- Rendering of one hit, standing in for `JSON.stringify`. -/
def serializeBook (b : Book) : String :=
  "\x7b \"title\": \"" ++ b.title ++ "\", \"authors\": [" ++
    String.intercalate ", " (b.authors.map (fun a => "\"" ++ a ++ "\"")) ++
    "], \"link\": \"" ++ b.link ++ "\" \x7d"

/-- Rendering of the hit list, standing in for `JSON.stringify(hits, null, 2)`. -/
def serializeBooks (bs : List Book) : String :=
  "[" ++ String.intercalate ", " (bs.map serializeBook) ++ "]"

/-- Error type of the spec's §4.4 tool contract. -/
structure ToolExecutionError where
  toolName : String
  cause : String
deriving DecidableEq, Repr

/-- Body of `booksTool` (day-3 executor lines 27-43): run `searchBooks` on the
query and return the JSON text of the hits.  Because `searchBooks` catches
every downstream failure internally, the tool body itself never fails. -/
def booksTool (outcome : FetchOutcome) (query : String) :
    Except ToolExecutionError String :=
  Except.ok (serializeBooks (searchBooks outcome query))

/-- Retry configuration attached to a node (scalableMemory.ts lines 117-123,
graphWithMemory.ts lines 73-79). -/
structure RetryPolicy where
  initialInterval : Nat
  backoffFactor : Nat
  maxAttempts : Nat
deriving DecidableEq, Repr

/-- The concrete policy both day-5 graphs attach to their `callAgent` node. -/
def callAgentRetryPolicy : RetryPolicy :=
  { initialInterval := 1000, backoffFactor := 2, maxAttempts := 3 }

/-- Modelled from the spec: the retry executor of `@langchain/langgraph` that
interprets a node's `retryPolicy` (the repository only declares the policy;
the executor is library code).  Following §4.2: attempt the step; on failure
wait `initialInterval * backoffFactor ^ (attempt - 1)` and try again, up to
`maxAttempts` attempts in total, re-raising the last error.  The step is
given as the outcome of its n-th invocation; the result carries the final
outcome, the number of invocations made, and the ordered list of waits
between consecutive attempts.  The fuel argument is the number of attempts
still allowed; the fuel-0 equation is never reached from `runWithRetry`
when `maxAttempts ≥ 1`. -/
def retryGo {E A : Type} (p : RetryPolicy) (step : Nat → Except E A) :
    Nat → Nat → Except E A × Nat × List Nat
  | _, 0 => (step 1, 0, [])
  | attempt, 1 => (step attempt, 1, [])
  | attempt, r + 2 =>
      match step attempt with
      | Except.ok a => (Except.ok a, 1, [])
      | Except.error _ =>
          let rest := retryGo p step (attempt + 1) (r + 1)
          (rest.1, rest.2.1 + 1,
            p.initialInterval * p.backoffFactor ^ (attempt - 1) :: rest.2.2)

/-- Modelled from the spec: run a step under a retry policy, starting at
attempt 1 with `maxAttempts` attempts allowed. -/
def runWithRetry {E A : Type} (p : RetryPolicy) (step : Nat → Except E A) :
    Except E A × Nat × List Nat :=
  retryGo p step 1 p.maxAttempts

/-- The waits an always-failing step incurs: `k` waits starting at attempt
number `attempt`, each `initialInterval * backoffFactor ^ (attempt - 1)`. -/
def backoffList (p : RetryPolicy) : Nat → Nat → List Nat
  | _, 0 => []
  | attempt, k + 1 =>
      p.initialInterval * p.backoffFactor ^ (attempt - 1) ::
        backoffList p (attempt + 1) k

/-- The shared graph state (`GraphState`): the day-4 graph declares `input`
and `agentOut`, the day-5 graphs add `chat_history` and `userId`; one record
covers all three (the day-4 nodes simply never touch the extra fields). -/
structure GS where
  input : String
  agentOut : String
  chat_history : List Message
  userId : String
deriving DecidableEq, Repr

/-- A `Partial<GS>` update returned by a node: present fields overwrite the
state, absent fields are preserved. -/
structure GSUpdate where
  input : Option String := none
  agentOut : Option String := none
  chat_history : Option (List Message) := none
  userId : Option String := none
deriving DecidableEq, Repr

/-- Field-wise merge of a partial update into the state (§4.1 step (c)). -/
def mergeGS (s : GS) (u : GSUpdate) : GS :=
  { input := u.input.getD s.input
    agentOut := u.agentOut.getD s.agentOut
    chat_history := u.chat_history.getD s.chat_history
    userId := u.userId.getD s.userId }

/-- The mutable module-level environment living outside the graph state: the
`memoryFactory` singleton, the `memory` field of the single shared
`agentExecutor` (`none` = unset, `some id` = the attached `BufferMemory`
instance), and the response the executor produces for a given input
(abstracting the LLM-plus-tools call). -/
structure World where
  factory : FactoryState
  executorMemory : Option Nat
  agentResponse : String → String

/-- Node `echoInput` of `scalableAgentGraph` (scalableMemory.ts lines 92-98). -/
def scalableEchoInput (s : GS) (w : World) : GSUpdate × World :=
  ({ input := some s.input, userId := some s.userId }, w)

/-- Node `callAgent` of `scalableAgentGraph` (scalableMemory.ts lines
100-124): fetch the per-user memory from the factory, assign it to the
`memory` field of the shared `agentExecutor`, invoke the executor — which
produces a response and saves the new user/assistant exchange into the
attached memory — and return the output as a partial update. -/
def scalableCallAgent (s : GS) (w : World) : GSUpdate × World :=
  let id := (ScalableMemoryFactory.createMemory w.factory s.userId).1
  let fs := (ScalableMemoryFactory.createMemory w.factory s.userId).2
  let out := w.agentResponse s.input
  let fs2 := appendMessage (appendMessage fs id { role := "user", content := s.input })
    id { role := "assistant", content := out }
  ({ agentOut := some out },
    { factory := fs2, executorMemory := some id, agentResponse := w.agentResponse })

/-- Node `return` (identical in all three graphs). -/
def returnNode (s : GS) (w : World) : GSUpdate × World :=
  ({ agentOut := some s.agentOut }, w)

/-- Node `echoInput` of the day-4 `agentGraph` (graph.ts lines 31-36). -/
def day4EchoInput (s : GS) (w : World) : GSUpdate × World :=
  ({ input := some s.input }, w)

/-- Node `callAgent` of the day-4 `agentGraph` (graph.ts lines 47-53):
invoke the shared executor on the current input, without touching memory. -/
def day4CallAgent (s : GS) (w : World) : GSUpdate × World :=
  ({ agentOut := some (w.agentResponse s.input) }, w)

/-- Node table of `scalableAgentGraph`. -/
def scalableNodes (n : String) : Option (GS → World → GSUpdate × World) :=
  if n = "echoInput" then some scalableEchoInput
  else if n = "callAgent" then some scalableCallAgent
  else if n = "return" then some returnNode
  else none

/-- Node table of the day-4 `agentGraph`. -/
def day4Nodes (n : String) : Option (GS → World → GSUpdate × World) :=
  if n = "echoInput" then some day4EchoInput
  else if n = "callAgent" then some day4CallAgent
  else if n = "return" then some returnNode
  else none

/-- The edge list all three shipped graphs declare with `addEdge`. -/
def linearEdges : List (String × String) :=
  [("__start__", "echoInput"), ("echoInput", "callAgent"),
   ("callAgent", "return"), ("return", "__end__")]

/-- Modelled from the spec: the sequential engine of a compiled `StateGraph`
(`.compile()` and its runner are `@langchain/langgraph` library code; the
repository only declares nodes and edges).  Following §4.1: execute the
current node on the current state, merge its partial update field-wise,
follow the node's single outgoing edge, stop at `__end__`; `none` signals a
structural error (missing node or edge, fuel exhausted).  Returns the final
state, the final world, and the ordered trace of executed node names. -/
def runFrom (nodes : String → Option (GS → World → GSUpdate × World))
    (edges : List (String × String)) :
    Nat → String → GS → World → Option (GS × World × List String)
  | 0, _, _, _ => none
  | fuel + 1, cur, s, w =>
      if cur = "__end__" then some (s, w, [])
      else
        match nodes cur with
        | none => none
        | some f =>
            match findKey edges cur with
            | none => none
            | some nxt =>
                (runFrom nodes edges fuel nxt (mergeGS s (f s w).1) (f s w).2).map
                  (fun r => (r.1, r.2.1, cur :: r.2.2))

/-- Modelled from the spec: run a compiled graph, entering at the successor
of `__start__`, with fuel one more than the number of edges (a linear graph
traverses each edge at most once). -/
def runGraph (nodes : String → Option (GS → World → GSUpdate × World))
    (edges : List (String × String)) (s : GS) (w : World) :
    Option (GS × World × List String) :=
  match findKey edges "__start__" with
  | none => none
  | some first => runFrom nodes edges (edges.length + 1) first s w

/-- The world left behind by one invocation of `scalableAgentGraph` (the
value `runGraph scalableNodes linearEdges s w` carries in its world
component): the per-user store holds the new exchange, and the shared
executor's `memory` field still points at that user's store. -/
def afterWorld (s : GS) (w : World) : World :=
  { factory :=
      appendMessage
        (appendMessage (ScalableMemoryFactory.createMemory w.factory s.userId).2
          (ScalableMemoryFactory.createMemory w.factory s.userId).1
          { role := "user", content := s.input })
        (ScalableMemoryFactory.createMemory w.factory s.userId).1
        { role := "assistant", content := w.agentResponse s.input }
    executorMemory := some (ScalableMemoryFactory.createMemory w.factory s.userId).1
    agentResponse := w.agentResponse }

/-- A node table whose single step is a pure function of the state alone,
used to instantiate the determinism theorem on a concrete input. -/
def constNodes (_ : String) : Option (GS → World → GSUpdate × World) :=
  some (fun s w => ({ input := some s.input }, w))

/-- A `volumeInfo` with every field absent. -/
def bareVolumeInfo : VolumeInfo :=
  { title := none, authors := none, infoLink := none }

/-- A response body whose single item has a `volumeInfo` with every field
absent. -/
def bareItemData : BooksData :=
  { items := some [some { volumeInfo := some bareVolumeInfo }] }

/-- The hit `searchBooks` produces for `bareItemData`: all three defaults. -/
def defaultBook : Book :=
  { title := "Unknown title", authors := [], link := "" }

/-- The graph state `scalableAgentGraph` leaves behind for an initial state
`s`: the input echoes through, `agentOut` carries the executor's response. -/
def afterGS (s : GS) (w : World) : GS :=
  { input := s.input, agentOut := w.agentResponse s.input
    chat_history := s.chat_history, userId := s.userId }

/-- A concrete initial state for user `u1`. -/
def gsDemo1 : GS :=
  { input := "hi", agentOut := "", chat_history := [], userId := "u1" }

/-- A concrete initial state for user `u2`. -/
def gsDemo2 : GS :=
  { input := "yo", agentOut := "", chat_history := [], userId := "u2" }

/-- A concrete world. -/
def worldA : World :=
  { factory := initFactory, executorMemory := none, agentResponse := fun _ => "alpha" }

/-- A second concrete world, differing from `worldA` everywhere it can. -/
def worldB : World :=
  { factory := initFactory, executorMemory := some 7, agentResponse := fun _ => "beta" }

theorem goodFactory_init : GoodFactory initFactory := by
  refine ⟨List.nodup_nil, List.nodup_nil, ?_⟩
  intro p hp; simp [initFactory] at hp

theorem findKey_eq_some_mem {β : Type} {l : List (String × β)} {k : String} {v : β}
    (h : findKey l k = some v) : (k, v) ∈ l := by
  induction l with
  | nil => simp [findKey] at h
  | cons p t ih =>
      obtain ⟨k1, v1⟩ := p
      by_cases hk : k1 = k
      · subst hk
        simp [findKey] at h
        subst h; exact List.mem_cons_self _ _
      · simp [findKey, hk] at h
        exact List.mem_cons_of_mem _ (ih h)

theorem mem_findKey_isSome {β : Type} {l : List (String × β)} {k : String} {v : β}
    (h : (k, v) ∈ l) : (findKey l k).isSome := by
  induction l with
  | nil => simp at h
  | cons p t ih =>
      obtain ⟨k1, v1⟩ := p
      rcases List.mem_cons.mp h with h1 | h1
      · have hk : k1 = k := (congrArg Prod.fst h1).symm
        simp [findKey, hk]
      · by_cases hk : k1 = k
        · simp [findKey, hk]
        · simpa [findKey, hk] using ih h1

/-- In a state with unique `BufferMemory` instances per entry, distinct keys
are never bound to the same instance. -/
theorem distinct_keys_distinct_ids {s : FactoryState} (hg : GoodFactory s)
    {u1 u2 : String} {id1 id2 : Nat}
    (h1 : (u1, id1) ∈ s.instances) (h2 : (u2, id2) ∈ s.instances)
    (hne : u1 ≠ u2) : id1 ≠ id2 := by
  intro heq
  subst heq
  obtain ⟨-, hids, -⟩ := hg
  have := List.inj_on_of_nodup_map hids h1 h2 rfl
  exact hne (congrArg Prod.fst this)

theorem findKey_isSome_of_mem_keys {β : Type} {l : List (String × β)} {k : String}
    (h : k ∈ l.map Prod.fst) : (findKey l k).isSome := by
  obtain ⟨p, hp, hk⟩ := List.mem_map.mp h
  obtain ⟨k1, v⟩ := p
  cases hk
  exact mem_findKey_isSome hp

theorem createMemory_found {s : FactoryState} {u : String} {id : Nat}
    (h : findKey s.instances u = some id) :
    ScalableMemoryFactory.createMemory s u = (id, s) := by
  simp [ScalableMemoryFactory.createMemory, h]

theorem createMemory_mem (s : FactoryState) (u : String) :
    (u, (ScalableMemoryFactory.createMemory s u).1) ∈
      (ScalableMemoryFactory.createMemory s u).2.instances := by
  cases hfk : findKey s.instances u with
  | some id =>
      simp only [ScalableMemoryFactory.createMemory, hfk]
      exact findKey_eq_some_mem hfk
  | none => simp [ScalableMemoryFactory.createMemory, hfk]

theorem createMemory_findKey_self (s : FactoryState) (u : String) :
    findKey (ScalableMemoryFactory.createMemory s u).2.instances u =
      some (ScalableMemoryFactory.createMemory s u).1 := by
  cases hfk : findKey s.instances u with
  | some id => simp [ScalableMemoryFactory.createMemory, hfk]
  | none => simp [ScalableMemoryFactory.createMemory, hfk, findKey]

theorem good_createMemory {s : FactoryState} (hg : GoodFactory s) (u : String) :
    GoodFactory (ScalableMemoryFactory.createMemory s u).2 := by
  obtain ⟨hkeys, hids, hbound⟩ := hg
  cases hfk : findKey s.instances u with
  | some id => simpa [ScalableMemoryFactory.createMemory, hfk] using ⟨hkeys, hids, hbound⟩
  | none =>
      simp only [ScalableMemoryFactory.createMemory, hfk]
      refine ⟨?_, ?_, ?_⟩
      · simp only [List.map_cons, List.nodup_cons]
        refine ⟨fun hmem => ?_, hkeys⟩
        have := findKey_isSome_of_mem_keys hmem
        rw [hfk] at this
        simp at this
      · simp only [List.map_cons, List.nodup_cons]
        refine ⟨fun hmem => ?_, hids⟩
        obtain ⟨p, hp, hpid⟩ := List.mem_map.mp hmem
        have := hbound p hp
        omega
      · intro p hp
        show p.2 < s.nextId + 1
        rcases List.mem_cons.mp hp with h1 | h1
        · subst h1; simp
        · have := hbound p h1; omega

theorem readAll_appendMessage_other {id1 id2 : Nat} (s : FactoryState)
    (h : id2 ≠ id1) (m : Message) :
    readAll (appendMessage s id1 m) id2 = readAll s id2 := by
  simp [readAll, appendMessage, h]

theorem readAll_appendMessage_self (s : FactoryState) (id : Nat) (m : Message) :
    readAll (appendMessage s id m) id = readAll s id ++ [m] := by
  simp [readAll, appendMessage]

theorem readAll_createMemory_lt {s : FactoryState} {id : Nat} (h : id < s.nextId)
    (u : String) :
    readAll (ScalableMemoryFactory.createMemory s u).2 id = readAll s id := by
  cases hfk : findKey s.instances u with
  | some i => simp [ScalableMemoryFactory.createMemory, hfk]
  | none =>
      simp only [ScalableMemoryFactory.createMemory, hfk, readAll]
      have : id ≠ s.nextId := Nat.ne_of_lt h
      simp [this]

/-- Creating a store for a second, different key never hands back an instance
already registered for another key. -/
theorem createMemory_fresh_ne {s : FactoryState} (hg : GoodFactory s)
    {u1 u2 : String} {id1 : Nat} (h1 : (u1, id1) ∈ s.instances) (hne : u1 ≠ u2) :
    id1 ≠ (ScalableMemoryFactory.createMemory s u2).1 := by
  cases hfk : findKey s.instances u2 with
  | some id2 =>
      simp only [ScalableMemoryFactory.createMemory, hfk]
      exact distinct_keys_distinct_ids hg h1 (findKey_eq_some_mem hfk) hne
  | none =>
      simp only [ScalableMemoryFactory.createMemory, hfk]
      have := hg.2.2 _ h1
      omega

/-- C1: for distinct user identifiers, the factory hands out distinct
`BufferMemory` instances; a message appended to the first user's store is
invisible when reading all messages of the second user's store; and a whole
`callAgent` execution for the first user leaves any other user's registered
history untouched. -/
theorem user_memory_isolation (w : World) (s1 : GS) (u2 : String) (id2q : Nat)
    (m : Message) (hg : GoodFactory w.factory) (hne : u2 ≠ s1.userId)
    (h2 : (u2, id2q) ∈ w.factory.instances) :
    (ScalableMemoryFactory.createMemory w.factory s1.userId).1 ≠
      (ScalableMemoryFactory.createMemory
        (ScalableMemoryFactory.createMemory w.factory s1.userId).2 u2).1 ∧
    readAll
        (appendMessage
          (ScalableMemoryFactory.createMemory
            (ScalableMemoryFactory.createMemory w.factory s1.userId).2 u2).2
          (ScalableMemoryFactory.createMemory w.factory s1.userId).1 m)
        (ScalableMemoryFactory.createMemory
          (ScalableMemoryFactory.createMemory w.factory s1.userId).2 u2).1 =
      readAll
        (ScalableMemoryFactory.createMemory
          (ScalableMemoryFactory.createMemory w.factory s1.userId).2 u2).2
        (ScalableMemoryFactory.createMemory
          (ScalableMemoryFactory.createMemory w.factory s1.userId).2 u2).1 ∧
    readAll (afterWorld s1 w).factory id2q = readAll w.factory id2q := by
  have hg1 : GoodFactory (ScalableMemoryFactory.createMemory w.factory s1.userId).2 :=
    good_createMemory hg s1.userId
  have h1 := createMemory_mem w.factory s1.userId
  have hne1 : s1.userId ≠ u2 := fun h => hne h.symm
  have hid : (ScalableMemoryFactory.createMemory w.factory s1.userId).1 ≠
      (ScalableMemoryFactory.createMemory
        (ScalableMemoryFactory.createMemory w.factory s1.userId).2 u2).1 :=
    createMemory_fresh_ne hg1 h1 hne1
  refine ⟨hid, ?_, ?_⟩
  · exact readAll_appendMessage_other _ (fun h => hid h.symm) m
  · have hq : id2q ≠ (ScalableMemoryFactory.createMemory w.factory s1.userId).1 :=
      createMemory_fresh_ne hg h2 hne
    have hlt : id2q < w.factory.nextId := hg.2.2 _ h2
    show readAll (appendMessage (appendMessage _ _ _) _ _) id2q = _
    rw [readAll_appendMessage_other _ hq, readAll_appendMessage_other _ hq,
      readAll_createMemory_lt hlt]

/-- C1 witness: on a factory already holding a store for `u2`, a run for `u1`
touches neither the instance nor the history of `u2`. -/
theorem user_memory_isolation_witness :
    GoodFactory (ScalableMemoryFactory.createMemory initFactory "u2").2 ∧
    ("u2" : String) ≠ "u1" ∧
    ("u2", 0) ∈ (ScalableMemoryFactory.createMemory initFactory "u2").2.instances ∧
    (1 : Nat) ≠ 2 ∧
    readAll
        (afterWorld { input := "hi", agentOut := "", chat_history := [], userId := "u1" }
          { factory := (ScalableMemoryFactory.createMemory initFactory "u2").2
            executorMemory := none
            agentResponse := fun _ => "ok" }).factory 0 =
      readAll (ScalableMemoryFactory.createMemory initFactory "u2").2 0 := by
  have h := user_memory_isolation
    { factory := (ScalableMemoryFactory.createMemory initFactory "u2").2
      executorMemory := none
      agentResponse := fun _ => "ok" }
    { input := "hi", agentOut := "", chat_history := [], userId := "u1" }
    "u2" 0 { role := "user", content := "hello" }
    (by decide) (by decide) (by decide)
  exact ⟨by decide, by decide, by decide, by decide, h.2.2⟩

/-- C3 counterexample: on the empty user identifier, `createMemory` does not
fail — it registers a store for the key `""` and returns it with an empty
history — while the spec's `createOrGet` contract demands an
`InvalidKeyError` there. -/
theorem createMemory_empty_key_no_error :
    createOrGetSpec initFactory "" = Except.error InvalidKeyError.invalidKey ∧
    (ScalableMemoryFactory.createMemory initFactory "").2.instances = [("", 0)] ∧
    readAll (ScalableMemoryFactory.createMemory initFactory "").2
      (ScalableMemoryFactory.createMemory initFactory "").1 = [] := by
  refine ⟨rfl, rfl, rfl⟩

theorem createMemory_first_call (s : FactoryState) (u : String)
    (hnew : findKey s.instances u = none) :
    findKey (ScalableMemoryFactory.createMemory s u).2.instances u =
      some (ScalableMemoryFactory.createMemory s u).1 ∧
    readAll (ScalableMemoryFactory.createMemory s u).2
      (ScalableMemoryFactory.createMemory s u).1 = [] := by
  refine ⟨createMemory_findKey_self s u, ?_⟩
  simp [ScalableMemoryFactory.createMemory, hnew, readAll]

/-- C3 amended: `createMemory` never fails for any `userId`, the empty string
included — there is no key validation at all; on the first call for a key it
registers the key and returns a store with empty history. -/
theorem createMemory_always_succeeds (s : FactoryState) (u : String)
    (hnew : findKey s.instances u = none) :
    findKey (ScalableMemoryFactory.createMemory s u).2.instances u =
      some (ScalableMemoryFactory.createMemory s u).1 ∧
    readAll (ScalableMemoryFactory.createMemory s u).2
      (ScalableMemoryFactory.createMemory s u).1 = [] :=
  createMemory_first_call s u hnew

/-- C3 amended witness: the first call for the empty key on a fresh factory
registers it and returns an empty store. -/
theorem createMemory_always_succeeds_witness :
    findKey initFactory.instances "" = none ∧
    findKey (ScalableMemoryFactory.createMemory initFactory "").2.instances "" =
      some (ScalableMemoryFactory.createMemory initFactory "").1 ∧
    readAll (ScalableMemoryFactory.createMemory initFactory "").2
      (ScalableMemoryFactory.createMemory initFactory "").1 = [] := by
  have h := createMemory_always_succeeds initFactory "" rfl
  exact ⟨rfl, h.1, h.2⟩

/-- C4: calling `createMemory` twice with the same `userId` returns the very
same store instance and leaves the factory state unchanged, so a message
appended through the first handle is read back through the second. -/
theorem createMemory_idempotent (s : FactoryState) (u : String) (m : Message) :
    ScalableMemoryFactory.createMemory (ScalableMemoryFactory.createMemory s u).2 u =
      ((ScalableMemoryFactory.createMemory s u).1,
        (ScalableMemoryFactory.createMemory s u).2) ∧
    m ∈ readAll
        (appendMessage (ScalableMemoryFactory.createMemory s u).2
          (ScalableMemoryFactory.createMemory s u).1 m)
        (ScalableMemoryFactory.createMemory
          (ScalableMemoryFactory.createMemory s u).2 u).1 := by
  have hsame := createMemory_found (createMemory_findKey_self s u)
  refine ⟨hsame, ?_⟩
  rw [hsame]
  rw [readAll_appendMessage_self]
  exact List.mem_append_right _ (List.mem_singleton.mpr rfl)

theorem removeKey_length {β : Type} {l : List (String × β)} {k : String}
    (h : k ∈ l.map Prod.fst) : (removeKey l k).length + 1 = l.length := by
  induction l with
  | nil => simp at h
  | cons p t ih =>
      obtain ⟨k1, v⟩ := p
      by_cases hk : k1 = k
      · simp [removeKey, hk]
      · have hmem : k ∈ t.map Prod.fst := by
          rcases List.mem_cons.mp h with h1 | h1
          · exact absurd h1.symm hk
          · exact h1
        simp only [removeKey, hk, if_false, List.length_cons]
        rw [← ih hmem]

theorem findKey_eq_none_of_not_mem {β : Type} {l : List (String × β)} {k : String}
    (h : k ∉ l.map Prod.fst) : findKey l k = none := by
  cases hfk : findKey l k with
  | none => rfl
  | some v =>
      exact absurd (List.mem_map_of_mem Prod.fst (findKey_eq_some_mem hfk)) h

theorem findKey_removeKey_self {β : Type} {l : List (String × β)} {k : String}
    (h : (l.map Prod.fst).Nodup) : findKey (removeKey l k) k = none := by
  induction l with
  | nil => rfl
  | cons p t ih =>
      obtain ⟨k1, v⟩ := p
      simp only [List.map_cons, List.nodup_cons] at h
      by_cases hk : k1 = k
      · subst hk
        simp only [removeKey, if_pos rfl]
        exact findKey_eq_none_of_not_mem h.1
      · simp only [removeKey, hk, if_false, findKey]
        exact ih h.2

/-- C5: evicting a user that currently has a store drops `userCount` by
exactly one, and the next `createMemory` for that user returns a store with
empty history. -/
theorem evict_then_fresh (s : FactoryState) (u : String) (id : Nat)
    (hg : GoodFactory s) (hmem : findKey s.instances u = some id) :
    (ScalableMemoryFactory.getMemoryStats (ScalableMemoryFactory.clearMemory s u)).1 + 1 =
      (ScalableMemoryFactory.getMemoryStats s).1 ∧
    readAll
        (ScalableMemoryFactory.createMemory (ScalableMemoryFactory.clearMemory s u) u).2
        (ScalableMemoryFactory.createMemory (ScalableMemoryFactory.clearMemory s u) u).1 =
      [] := by
  have hkeys : u ∈ s.instances.map Prod.fst :=
    List.mem_map_of_mem Prod.fst (findKey_eq_some_mem hmem)
  constructor
  · simp only [ScalableMemoryFactory.getMemoryStats, ScalableMemoryFactory.clearMemory, hmem]
    exact removeKey_length hkeys
  · have hgone : findKey (ScalableMemoryFactory.clearMemory s u).instances u = none := by
      simp only [ScalableMemoryFactory.clearMemory, hmem]
      exact findKey_removeKey_self hg.1
    exact (createMemory_first_call _ u hgone).2

/-- C5 witness: on a factory holding exactly one user, eviction brings
`userCount` from 1 to 0 and recreation yields an empty history. -/
theorem evict_then_fresh_witness :
    GoodFactory (ScalableMemoryFactory.createMemory initFactory "u1").2 ∧
    findKey (ScalableMemoryFactory.createMemory initFactory "u1").2.instances "u1" =
      some 0 ∧
    (ScalableMemoryFactory.getMemoryStats
        (ScalableMemoryFactory.clearMemory
          (ScalableMemoryFactory.createMemory initFactory "u1").2 "u1")).1 + 1 =
      (ScalableMemoryFactory.getMemoryStats
        (ScalableMemoryFactory.createMemory initFactory "u1").2).1 ∧
    readAll
        (ScalableMemoryFactory.createMemory
          (ScalableMemoryFactory.clearMemory
            (ScalableMemoryFactory.createMemory initFactory "u1").2 "u1") "u1").2
        (ScalableMemoryFactory.createMemory
          (ScalableMemoryFactory.clearMemory
            (ScalableMemoryFactory.createMemory initFactory "u1").2 "u1") "u1").1 =
      [] := by
  have h := evict_then_fresh (ScalableMemoryFactory.createMemory initFactory "u1").2
    "u1" 0 (by decide) (by decide)
  exact ⟨by decide, by decide, h.1, h.2⟩

/-- C2 counterexample: when the underlying fetch fails (network error) or
returns a non-OK HTTP status, invoking the books tool does not fail with a
`ToolExecutionError` — it returns the normal text result `"[]"`, because
`searchBooks` catches every downstream failure and returns the empty list. -/
theorem booksTool_text_on_downstream_failure :
    booksTool FetchOutcome.fetchError "Harry Potter" = Except.ok "[]" ∧
    booksTool (FetchOutcome.response false 500 (Except.error ())) "Harry Potter" =
      Except.ok "[]" := by
  refine ⟨rfl, rfl⟩

/-- C2 amended: invoking the books tool never fails: for every downstream
outcome, network errors and non-OK HTTP statuses included, it returns a
normal text result — the serialization of the `searchBooks` hit list, which
is empty on any downstream failure. -/
theorem booksTool_never_fails (outcome : FetchOutcome) (query : String) :
    booksTool outcome query = Except.ok (serializeBooks (searchBooks outcome query)) ∧
    booksTool FetchOutcome.fetchError query = Except.ok (serializeBooks []) := by
  refine ⟨rfl, rfl⟩

/-- C9: `searchBooks` is total — every failure path (fetch rejection, non-OK
status, JSON parse failure) yields `[]` rather than an exception — and every
entry of a successful result takes its `title`, `authors` and `link` from
the item's `volumeInfo` with the defaults `"Unknown title"`, `[]` and `""`
for absent fields. -/
theorem searchBooks_success_eq (st : Nat) (d : BooksData) (query : String) :
    searchBooks (FetchOutcome.response true st (Except.ok d)) query =
      (((d.items.getD []).filterMap id).filter (fun b => b.volumeInfo.isSome)).map
        (fun b =>
          { title := (b.volumeInfo.bind VolumeInfo.title).getD "Unknown title"
            authors := (b.volumeInfo.bind VolumeInfo.authors).getD []
            link := (b.volumeInfo.bind VolumeInfo.infoLink).getD "" }) := rfl

theorem searchBooks_total_and_defaulted (query : String) (st : Nat)
    (body : Except Unit BooksData) (d : BooksData) (b : Book)
    (hb : b ∈ searchBooks (FetchOutcome.response true st (Except.ok d)) query) :
    searchBooks FetchOutcome.fetchError query = [] ∧
    searchBooks (FetchOutcome.response false st body) query = [] ∧
    searchBooks (FetchOutcome.response true st (Except.error ())) query = [] ∧
    ∃ item ∈ (d.items.getD []).filterMap id, ∃ vi, item.volumeInfo = some vi ∧
      b.title = vi.title.getD "Unknown title" ∧
      b.authors = vi.authors.getD [] ∧
      b.link = vi.infoLink.getD "" := by
  refine ⟨rfl, rfl, rfl, ?_⟩
  rw [searchBooks_success_eq, List.mem_map] at hb
  obtain ⟨item, hmemf, hbeq⟩ := hb
  rw [List.mem_filter] at hmemf
  obtain ⟨hmem, hvs⟩ := hmemf
  obtain ⟨vi, hvi⟩ := Option.isSome_iff_exists.mp hvs
  refine ⟨item, hmem, vi, hvi, ?_, ?_, ?_⟩ <;>
    simp [← hbeq, hvi]

/-- C9 witness: a response whose single item has a `volumeInfo` with every
field absent yields exactly one entry, made entirely of the defaults. -/
theorem searchBooks_total_and_defaulted_witness :
    defaultBook ∈
      searchBooks (FetchOutcome.response true 200 (Except.ok bareItemData)) "q" ∧
    searchBooks FetchOutcome.fetchError "q" = [] ∧
    ∃ item ∈ (bareItemData.items.getD []).filterMap id,
      ∃ vi, item.volumeInfo = some vi ∧
        defaultBook.title = vi.title.getD "Unknown title" ∧
        defaultBook.authors = vi.authors.getD [] ∧
        defaultBook.link = vi.infoLink.getD "" := by
  have hlist :
      searchBooks (FetchOutcome.response true 200 (Except.ok bareItemData)) "q" =
        [defaultBook] := rfl
  have hb : defaultBook ∈
      searchBooks (FetchOutcome.response true 200 (Except.ok bareItemData)) "q" := by
    rw [hlist]; exact List.mem_singleton.mpr rfl
  have h := searchBooks_total_and_defaulted "q" 200 (Except.error ())
    bareItemData defaultBook hb
  exact ⟨hb, h.1, h.2.2.2⟩

theorem retryGo_all_fail {E A : Type} (p : RetryPolicy) (errf : Nat → E) :
    ∀ r attempt, 1 ≤ r →
      retryGo (A := A) p (fun n => Except.error (errf n)) attempt r =
        (Except.error (errf (attempt + r - 1)), r, backoffList p attempt (r - 1)) := by
  intro r
  induction r with
  | zero => omega
  | succ r ih =>
      intro attempt _
      cases r with
      | zero => simp [retryGo, backoffList]
      | succ r2 =>
          have hrec := ih (attempt + 1) (by omega)
          simp only [retryGo, hrec]
          have h1 : attempt + 1 + (r2 + 1) - 1 = attempt + (r2 + 1 + 1) - 1 := by omega
          rw [h1]
          rfl

theorem backoffList_eq_range_map (p : RetryPolicy) :
    ∀ k a, backoffList p (a + 1) k =
      (List.range k).map (fun i => p.initialInterval * p.backoffFactor ^ (a + i)) := by
  intro k
  induction k with
  | zero => intro a; rfl
  | succ k ih =>
      intro a
      show p.initialInterval * p.backoffFactor ^ (a + 1 - 1) ::
          backoffList p (a + 1 + 1) k = _
      rw [List.range_succ_eq_map, List.map_cons, List.map_map, ih (a + 1)]
      refine congrArg₂ List.cons (by simp) ?_
      refine List.map_congr_left (fun i _ => ?_)
      simp only [Function.comp_apply]
      have h3 : a + 1 + i = a + i.succ := by omega
      rw [h3]

/-- C6: a step wrapped with a retry policy with at least one attempt behaves
identically to the step when the step succeeds (one invocation, no waits);
when the step always fails, the wrapper invokes it exactly `maxAttempts`
times, waits `initialInterval * backoffFactor ^ (attempt - 1)` between
consecutive attempts, and re-raises the error of the last attempt. -/
theorem retry_policy_behavior {E A : Type} (p : RetryPolicy)
    (step : Nat → Except E A) (a : A) (errf : Nat → E)
    (hmax : 1 ≤ p.maxAttempts) (hs : step 1 = Except.ok a) :
    runWithRetry p step = (Except.ok a, 1, []) ∧
    runWithRetry (A := A) p (fun n => Except.error (errf n)) =
      (Except.error (errf p.maxAttempts), p.maxAttempts,
        (List.range (p.maxAttempts - 1)).map
          (fun i => p.initialInterval * p.backoffFactor ^ i)) := by
  constructor
  · rw [runWithRetry]
    cases hM : p.maxAttempts with
    | zero => omega
    | succ m =>
        cases m with
        | zero => simp [retryGo, hs]
        | succ m2 => simp [retryGo, hs]
  · rw [runWithRetry, retryGo_all_fail p errf p.maxAttempts 1 hmax]
    have hb := backoffList_eq_range_map p (p.maxAttempts - 1) 0
    simp only [Nat.zero_add] at hb
    have h2 : 1 + p.maxAttempts - 1 = p.maxAttempts := by omega
    rw [h2, hb]

/-- C6 witness: under the shipped policy (1000 ms initial interval, factor 2,
3 attempts), a succeeding step is invoked once with no waits, and an
always-failing step is invoked exactly 3 times with waits 1000 and 2000
before re-raising the error of attempt 3. -/
theorem retry_policy_behavior_witness :
    1 ≤ callAgentRetryPolicy.maxAttempts ∧
    (fun _ : Nat => (Except.ok "done" : Except String String)) 1 = Except.ok "done" ∧
    runWithRetry callAgentRetryPolicy
        (fun _ : Nat => (Except.ok "done" : Except String String)) =
      (Except.ok "done", 1, []) ∧
    runWithRetry callAgentRetryPolicy
        (fun n => (Except.error (toString n) : Except String String)) =
      (Except.error "3", 3, [1000, 2000]) := by
  have h := retry_policy_behavior callAgentRetryPolicy
    (fun _ : Nat => (Except.ok "done" : Except String String)) "done"
    (fun n => toString n) (by decide) rfl
  refine ⟨by decide, rfl, h.1, ?_⟩
  rw [h.2]
  rfl

/-- The scalable graph computes, for every initial state and world, the
expected final state, final world and trace. -/
theorem runScalable_eq (s : GS) (w : World) :
    runGraph scalableNodes linearEdges s w =
      some (afterGS s w, afterWorld s w, ["echoInput", "callAgent", "return"]) := rfl

/-- C7: in every run of a shipped compiled graph, the executed steps are
exactly `echoInput`, then `callAgent`, then `return` — the order the edges
determine — and no step appears twice in the trace. -/
theorem graph_steps_in_edge_order (s : GS) (w : World) :
    (runGraph scalableNodes linearEdges s w).map (fun r => r.2.2) =
      some ["echoInput", "callAgent", "return"] ∧
    (runGraph day4Nodes linearEdges s w).map (fun r => r.2.2) =
      some ["echoInput", "callAgent", "return"] ∧
    (["echoInput", "callAgent", "return"] : List String).Nodup := by
  refine ⟨rfl, rfl, by decide⟩

/-- C8: over a graph with fixed (unconditional) edges, if every step's state
update is a function of the state alone, two runs from the same initial
state — under arbitrarily different worlds — produce the same final state
and the same trace. -/
theorem run_deterministic
    (nodes : String → Option (GS → World → GSUpdate × World))
    (edges : List (String × String)) (fuel : Nat) (cur : String) (s : GS)
    (w1 w2 : World)
    (hdet : ∀ n f, nodes n = some f → ∀ t u1 u2, (f t u1).1 = (f t u2).1) :
    (runFrom nodes edges fuel cur s w1).map (fun r => (r.1, r.2.2)) =
      (runFrom nodes edges fuel cur s w2).map (fun r => (r.1, r.2.2)) := by
  induction fuel generalizing cur s w1 w2 with
  | zero => rfl
  | succ fuel ih =>
      by_cases hend : cur = "__end__"
      · simp [runFrom, hend]
      · simp only [runFrom, hend, if_false]
        cases hn : nodes cur with
        | none => rfl
        | some f =>
            cases he : findKey edges cur with
            | none => rfl
            | some nxt =>
                dsimp only
                have hst : (f s w1).1 = (f s w2).1 := hdet cur f hn s w1 w2
                rw [hst]
                have hIH := ih nxt (mergeGS s (f s w2).1) (f s w1).2 (f s w2).2
                cases h1 : runFrom nodes edges fuel nxt (mergeGS s (f s w2).1) (f s w1).2 with
                | none =>
                    cases h2 : runFrom nodes edges fuel nxt (mergeGS s (f s w2).1) (f s w2).2 with
                    | none => rfl
                    | some r2 => rw [h1, h2] at hIH; simp at hIH
                | some r1 =>
                    cases h2 : runFrom nodes edges fuel nxt (mergeGS s (f s w2).1) (f s w2).2 with
                    | none => rw [h1, h2] at hIH; simp at hIH
                    | some r2 =>
                        rw [h1, h2] at hIH
                        simp only [Option.map_some', Option.some.injEq, Prod.mk.injEq] at hIH
                        simp only [Option.map_some', Option.some.injEq, Prod.mk.injEq,
                          List.cons.injEq]
                        exact ⟨hIH.1, trivial, hIH.2⟩

/-- C8 witness: the same initial state through a node table of pure
state-functions, under two different worlds, yields the same final state
and trace. -/
theorem run_deterministic_witness :
    (runFrom constNodes linearEdges 5 "echoInput" gsDemo1 worldA).map
        (fun r => (r.1, r.2.2)) =
      (runFrom constNodes linearEdges 5 "echoInput" gsDemo1 worldB).map
        (fun r => (r.1, r.2.2)) :=
  run_deterministic constNodes linearEdges 5 "echoInput" gsDemo1 worldA worldB
    (fun n f hf t u1 u2 => by
      simp only [constNodes, Option.some.injEq] at hf
      subst hf
      rfl)

/-- C10: a run of the scalable graph for a user assigns that user's memory
instance to the `memory` field of the single shared `agentExecutor`, the
assignment is still in place in the world the run leaves behind, and a
subsequent run for a different user overwrites it with a different
instance — the executor's attached memory is shared mutable state across
runs, not scoped to one invocation. -/
theorem executor_memory_shared (s1 s2 : GS) (w : World)
    (hg : GoodFactory w.factory) (hne : s2.userId ≠ s1.userId) :
    runGraph scalableNodes linearEdges s1 w =
      some (afterGS s1 w, afterWorld s1 w, ["echoInput", "callAgent", "return"]) ∧
    (afterWorld s1 w).executorMemory =
      some (ScalableMemoryFactory.createMemory w.factory s1.userId).1 ∧
    (afterWorld s2 (afterWorld s1 w)).executorMemory ≠
      (afterWorld s1 w).executorMemory := by
  refine ⟨rfl, rfl, ?_⟩
  intro hcon
  have h1 := createMemory_mem w.factory s1.userId
  have hgood : GoodFactory (ScalableMemoryFactory.createMemory w.factory s1.userId).2 :=
    good_createMemory hg s1.userId
  have hfresh :
      (ScalableMemoryFactory.createMemory w.factory s1.userId).1 ≠
        (ScalableMemoryFactory.createMemory (afterWorld s1 w).factory s2.userId).1 :=
    createMemory_fresh_ne (s := (afterWorld s1 w).factory) hgood h1
      (fun h => hne h.symm)
  have hcon2 :
      some ((ScalableMemoryFactory.createMemory (afterWorld s1 w).factory s2.userId).1) =
        some ((ScalableMemoryFactory.createMemory w.factory s1.userId).1) := hcon
  exact hfresh (Option.some.inj hcon2).symm

/-- C10 witness: running for `u1` on a fresh factory leaves instance 0
attached to the executor; a following run for `u2` overwrites it with
instance 1. -/
theorem executor_memory_shared_witness :
    GoodFactory worldA.factory ∧
    gsDemo2.userId ≠ gsDemo1.userId ∧
    (afterWorld gsDemo1 worldA).executorMemory = some 0 ∧
    (afterWorld gsDemo2 (afterWorld gsDemo1 worldA)).executorMemory = some 1 ∧
    (afterWorld gsDemo2 (afterWorld gsDemo1 worldA)).executorMemory ≠
      (afterWorld gsDemo1 worldA).executorMemory := by
  have h := executor_memory_shared gsDemo1 gsDemo2 worldA (by decide) (by decide)
  exact ⟨by decide, by decide, rfl, rfl, h.2.2⟩

end AgentAI
